import Mathlib

/-!
Shallow embedding of the MeetR streaming-transcription core.

The embedding covers:
* `diarization.py` — `_cosine_sim`, `SpeakerTracker.assign`,
  `SpeakerTracker._load_model` / `_embed` (the latter two as an explicit
  state-passing model of the mutable `_model` / `_load_failed` fields), and
  `SpeakerTracker._match_or_create`.
* `transcription.py` — the endpointing state machine of
  `TranscriptionEngine._transcribe_loop` (ring buffer, hysteresis counters,
  segment open/close, end-of-stream flush), the minimum-duration guard and
  per-segment error handling of `_transcribe_segment`, and the unbounded
  frame handoff queue `_audio_q` as a producer/consumer step relation.

Python floats are modelled as real numbers; wall-clock readings
(`time.time() * 1000`) are modelled as rationals attached to each frame.
Python `int(x)` truncation toward zero is modelled by `pyInt`.
-/

namespace MeetR

/-! Constants of `diarization.py`. -/

noncomputable def MATCH_THRESHOLD : ℝ := 0.70

def MIN_SAMPLES : ℕ := 1600

/-! Cosine similarity, `_cosine_sim` in `diarization.py`:
`dot(a,b) / (norm(a) * norm(b))`, and `0.0` if either norm is zero. -/

noncomputable def dot : List ℝ → List ℝ → ℝ
  | [], _ => 0
  | _, [] => 0
  | x :: xs, y :: ys => x * y + dot xs ys

noncomputable def vnorm (a : List ℝ) : ℝ := Real.sqrt (dot a a)

noncomputable def cosineSim (a b : List ℝ) : ℝ :=
  if vnorm a = 0 ∨ vnorm b = 0 then 0 else dot a b / (vnorm a * vnorm b)

/-! The speaker bank: a list of (label, centroid) pairs in discovery order,
mirroring `SpeakerTracker._speakers`. -/

/-- Exponential-moving-average centroid update `0.9 * old + 0.1 * new`. -/
noncomputable def emaUpdate (c e : List ℝ) : List ℝ :=
  List.zipWith (fun x y => 0.9 * x + 0.1 * y) c e

/-- One step of the best-similarity scan in `_match_or_create`:
replace the accumulator only on strictly greater similarity, so that the
first-discovered profile wins ties. -/
noncomputable def bestStep (e : List ℝ) (acc : ℝ × Option String)
    (p : String × List ℝ) : ℝ × Option String :=
  if cosineSim e p.2 > acc.1 then (cosineSim e p.2, some p.1) else acc

/-- The scan over the bank with initial accumulator `(-1.0, None)`. -/
noncomputable def bestOf (e : List ℝ) (speakers : List (String × List ℝ)) :
    ℝ × Option String :=
  speakers.foldl (bestStep e) (-1, none)

/-- Replace the first profile whose label equals `bl` by its EMA-updated
version; models `self._speakers[idx] = ...` with
`idx = next(i for i, (l, _) in enumerate(self._speakers) if l == best_label)`. -/
noncomputable def updateFirst :
    List (String × List ℝ) → String → List ℝ → List (String × List ℝ)
  | [], _, _ => []
  | p :: rest, bl, e =>
    if p.1 = bl then (p.1, emaUpdate p.2 e) :: rest
    else p :: updateFirst rest bl e

/-- `SpeakerTracker._match_or_create`: `best_sim`/`best_label` are the scan
results; on `best_label is not None and best_sim >= MATCH_THRESHOLD` the
matched profile's centroid is EMA-updated in place, otherwise a new
profile `"Speaker " + (count+1)` is appended with the embedding verbatim. -/
noncomputable def matchOrCreate (speakers : List (String × List ℝ))
    (e : List ℝ) : String × List (String × List ℝ) :=
  match bestOf e speakers with
  | (bestSim, some bl) =>
    if bestSim ≥ MATCH_THRESHOLD then (bl, updateFirst speakers bl e)
    else ("Speaker " ++ toString (speakers.length + 1),
          speakers ++ [("Speaker " ++ toString (speakers.length + 1), e)])
  | (_, none) =>
    ("Speaker " ++ toString (speakers.length + 1),
     speakers ++ [("Speaker " ++ toString (speakers.length + 1), e)])

/-- Mutable fields of `SpeakerTracker`: `_model is not None`,
`_load_failed`, and `_speakers`. -/
structure TrackerState where
  modelLoaded : Bool
  loadFailed : Bool
  speakers : List (String × List ℝ)

/-- Per-call outcomes of the external embedding machinery: whether the
`pyannote` model constructor would succeed if attempted, and the result of
the model inference call (`none` models a raised exception). -/
structure EmbedEnv where
  loadOk : Bool
  inferResult : Option (List ℝ)

/-- `SpeakerTracker._load_model`: no-op when the model is loaded or loading
already failed; otherwise sets `_load_failed` on constructor failure. -/
def loadModel (s : TrackerState) (env : EmbedEnv) : TrackerState :=
  if s.modelLoaded ∨ s.loadFailed then s
  else if env.loadOk then { s with modelLoaded := true }
  else { s with loadFailed := true }

/-- `SpeakerTracker._embed`: runs `_load_model`, then invokes the model.
Returns the new state, the embedding (`none` = an exception escaped), and
whether the embedding model was actually invoked.  When `_load_model` left
`self._model` as `None`, calling it raises before any inference runs. -/
def embedCall (s : TrackerState) (env : EmbedEnv) :
    TrackerState × Option (List ℝ) × Bool :=
  let s2 := loadModel s env
  if s2.modelLoaded then (s2, env.inferResult, true)
  else (s2, none, false)

/-- `self._speakers[0][0] if self._speakers else "Speaker 1"`. -/
def firstLabel : List (String × List ℝ) → String
  | [] => "Speaker 1"
  | p :: _ => p.1

/-- `SpeakerTracker.assign`, with the audio abstracted to its sample count.
Returns the label, the tracker state after the call, and whether the
embedding model was invoked during the call. -/
noncomputable def assign (s : TrackerState) (audioLen : ℕ) (env : EmbedEnv) :
    String × TrackerState × Bool :=
  if audioLen < MIN_SAMPLES then (firstLabel s.speakers, s, false)
  else if s.loadFailed then ("Speaker 1", s, false)
  else
    match embedCall s env with
    | (s2, some v, inv) =>
      let mc := matchOrCreate s2.speakers v
      (mc.1, ⟨s2.modelLoaded, s2.loadFailed, mc.2⟩, inv)
    | (s2, none, inv) => ("Speaker 1", s2, inv)

/-- Similarity of the embedding `e` against the centroid of the bank entry
at index `k` (out-of-range indices read a dummy empty profile). -/
noncomputable def simAt (speakers : List (String × List ℝ)) (e : List ℝ)
    (k : ℕ) : ℝ :=
  cosineSim e ((speakers.getD k ("", [])).2)

/-- Label of the bank entry at index `k`. -/
def labelAt (speakers : List (String × List ℝ)) (k : ℕ) : String :=
  (speakers.getD k ("", [])).1

/-- Centroid of the bank entry at index `k`. -/
def centroidAt (speakers : List (String × List ℝ)) (k : ℕ) : List ℝ :=
  (speakers.getD k ("", [])).2

/-! Constants of `transcription.py`. -/

def FRAME_MS : ℕ := 30
def VOICED_TRIGGER_MS : ℕ := 200
def SILENCE_CLOSE_MS : ℕ := 800
def PRE_SPEECH_PAD_MS : ℕ := 300
def MIN_SPEECH_MS : Int := 250

/-- Python `int(x)`: truncation toward zero. -/
def pyInt (q : ℚ) : Int := if 0 ≤ q then ⌊q⌋ else ⌈q⌉

/-- The frame-count thresholds computed at the top of `_transcribe_loop`. -/
structure EPConfig where
  voicedThreshold : ℕ
  unvoicedThreshold : ℕ
  padFrames : ℕ
deriving DecidableEq

/-- `max(1, int(VOICED_TRIGGER_MS / FRAME_MS))` and friends. -/
def defaultConfig : EPConfig :=
  ⟨max 1 (VOICED_TRIGGER_MS / FRAME_MS),
   max 1 (SILENCE_CLOSE_MS / FRAME_MS),
   max 1 (PRE_SPEECH_PAD_MS / FRAME_MS)⟩

/-- One captured frame: its payload (abstract identifier for the 30 ms PCM
block), the VAD verdict for it (classifier failures already folded in as
`false`), and the wall-clock reading `time.time() * 1000` at the moment the
processing loop handles it. -/
structure Frame where
  data : ℕ
  isSpeech : Bool
  now : ℚ
deriving DecidableEq

/-- The mutable endpointing state of `_transcribe_loop`. -/
structure EPState where
  ring : List ℕ
  speech : List ℕ
  triggered : Bool
  numVoiced : ℕ
  numUnvoiced : ℕ
  segmentStartMs : ℚ
deriving DecidableEq

def initState : EPState := ⟨[], [], false, 0, 0, 0⟩

/-- Arguments of a `_transcribe_segment` call: the joined speech frames and
the integer start/end timestamps. -/
structure RawSeg where
  audio : List ℕ
  startMs : Int
  endMs : Int
deriving DecidableEq

/-- Ring-buffer push: `ring.append(frame)` then
`if len(ring) > pad_frames: ring.pop(0)`. -/
def pushRing (pad : ℕ) (ring : List ℕ) (d : ℕ) : List ℕ :=
  let r := ring ++ [d]
  if pad < r.length then r.tail else r

/-- One iteration of the endpointing loop body for a real frame
(lines 172-217 of `transcription.py`); returns the next state and the
segment passed to `_transcribe_segment`, if the segment closed. -/
def epStep (cfg : EPConfig) (ss : ℚ) (s : EPState) (f : Frame) :
    EPState × Option RawSeg :=
  if s.triggered then
    let sp := s.speech ++ [f.data]
    if f.isSpeech then
      ({ s with speech := sp, numUnvoiced := 0 }, none)
    else
      let nu := s.numUnvoiced + 1
      if cfg.unvoicedThreshold ≤ nu then
        ({ s with speech := [], triggered := false, numVoiced := 0, numUnvoiced := 0 },
         some ⟨sp, pyInt s.segmentStartMs, pyInt (f.now - ss)⟩)
      else ({ s with speech := sp, numUnvoiced := nu }, none)
  else
    let r := pushRing cfg.padFrames s.ring f.data
    if f.isSpeech then
      let nv := s.numVoiced + 1
      if cfg.voicedThreshold ≤ nv then
        (⟨[], r, true, nv, 0, f.now - ss - (r.length : ℚ) * (FRAME_MS : ℚ)⟩, none)
      else ({ s with ring := r, numVoiced := nv }, none)
    else ({ s with ring := r, numVoiced := 0 }, none)

/-- Run the loop over a list of frames, collecting closed segments in
dispatch order. -/
def epRun (cfg : EPConfig) (ss : ℚ) : EPState → List Frame →
    EPState × List RawSeg
  | s, [] => (s, [])
  | s, f :: fs =>
    let step := epStep cfg ss s f
    let rest := epRun cfg ss step.1 fs
    (rest.1, step.2.toList ++ rest.2)

/-- The state after running the loop from the initial state. -/
def epRunState (cfg : EPConfig) (ss : ℚ) (fs : List Frame) : EPState :=
  (epRun cfg ss initState fs).1

/-- End-of-stream flush (the `frame is None` branch): emits the open
segment, if any, with `max(0, floor(start))` and `max(0, int(end))`. -/
def epFlush (ss flushNow : ℚ) (s : EPState) : Option RawSeg :=
  if s.triggered ∧ s.speech ≠ [] then
    some ⟨s.speech, max 0 ⌊s.segmentStartMs⌋, max 0 (pyInt (flushNow - ss))⟩
  else none

/-- All segments handed to `_transcribe_segment` for a full run:
mid-stream closes followed by the end-of-stream flush. -/
def epSegments (cfg : EPConfig) (ss flushNow : ℚ) (frames : List Frame) :
    List RawSeg :=
  (epRun cfg ss initState frames).2 ++
    (epFlush ss flushNow (epRunState cfg ss frames)).toList

/-- A dispatched result tuple (speaker, text, start_ms, end_ms). -/
structure Result where
  speaker : String
  text : String
  startMs : Int
  endMs : Int
deriving DecidableEq

/-- `_transcribe_segment` (local-whisper path): drop the segment when its
duration is below `MIN_SPEECH_MS`; `backendText = none` models an exception
raised inside the per-segment `try` block (caught and logged there, never
propagated); empty text is also dropped; otherwise one result is
dispatched with the segment's own timestamps. -/
def transcribeSegment (seg : RawSeg) (backendText : Option String)
    (speaker : String) : Option Result :=
  if seg.endMs - seg.startMs < MIN_SPEECH_MS then none
  else
    match backendText with
    | none => none
    | some t => if t = "" then none else some ⟨speaker, t, seg.startMs, seg.endMs⟩

def dummySeg : RawSeg := ⟨[], 0, 0⟩

/-- Process the closed segments in order; `backend k` is the transcription
outcome for the `k`-th segment.  The loop never stops early: a failed
segment contributes nothing and processing continues. -/
def processSegments (speaker : String) (backend : ℕ → Option String) :
    List RawSeg → ℕ → List Result
  | [], _ => []
  | seg :: rest, k =>
    (transcribeSegment seg (backend k) speaker).toList ++
      processSegments speaker backend rest (k + 1)

/-- The dispatched results of a full run of the processing thread. -/
def runPipeline (cfg : EPConfig) (ss flushNow : ℚ) (frames : List Frame)
    (speaker : String) (backend : ℕ → Option String) : List Result :=
  processSegments speaker backend (epSegments cfg ss flushNow frames) 0

/-! The frame handoff queue `_audio_q = queue.Queue()` (no `maxsize`),
as a producer/consumer step relation: the capture callback `put`s one
frame, the processing loop `get`s one frame. -/

structure QState where
  frames : List ℕ
deriving DecidableEq

inductive QStep : QState → QState → Prop
  | put (s : QState) (d : ℕ) : QStep s ⟨s.frames ++ [d]⟩
  | get (d : ℕ) (rest : List ℕ) (s : QState) (h : s.frames = d :: rest) :
      QStep s ⟨rest⟩

/-- Reachability of a queue state from the empty queue. -/
def QReachable (s : QState) : Prop :=
  Relation.ReflTransGen QStep ⟨[]⟩ s

/-! Theorems. -/

/-- Helper: a queue holding `n` frames is reachable (the producer pushes
`n` frames before the consumer runs). -/
theorem qreachable_replicate (n : ℕ) : QReachable ⟨List.replicate n 0⟩ := by
  induction n with
  | zero => exact Relation.ReflTransGen.refl
  | succ n ih =>
    have h := QStep.put ⟨List.replicate n 0⟩ 0
    have e : (⟨List.replicate n 0 ++ [0]⟩ : QState) = ⟨List.replicate (n + 1) 0⟩ := by
      rw [← List.replicate_succ']
    exact Relation.ReflTransGen.tail ih (e ▸ h)

/-- C9 counterexample: the handoff queue `_audio_q = queue.Queue()` is
unbounded — no fixed finite capacity bounds the number of frames held in
reachable states of the producer/consumer step relation. -/
theorem queue_bounded_cex :
    ¬ ∃ N : ℕ, ∀ s : QState, QReachable s → s.frames.length ≤ N := by
  rintro ⟨N, h⟩
  have hb := h ⟨List.replicate (N + 1) 0⟩ (qreachable_replicate (N + 1))
  simp only [List.length_replicate] at hb
  omega

/-- C9 amended: the capture-to-processing handoff queue is an unbounded
FIFO — for every candidate bound `N` there is a reachable state of the
producer/consumer step relation in which the queue holds more than `N`
frames. -/
theorem queue_unbounded_amended (N : ℕ) :
    ∃ s : QState, QReachable s ∧ N < s.frames.length :=
  ⟨⟨List.replicate (N + 1) 0⟩, qreachable_replicate (N + 1), by simp⟩

/-- C10 counterexample: with 30 ms frames, the default frame-count
thresholds of `_transcribe_loop` do not multiply back to the spec's
200 ms / 800 ms durations (integer truncation loses the remainder). -/
theorem default_thresholds_cex :
    ¬ (defaultConfig.voicedThreshold * FRAME_MS = 200 ∧
       defaultConfig.unvoicedThreshold * FRAME_MS = 800) := by
  decide

/-- C10 amended: the default thresholds are `max(1, 200 // 30) = 6` voiced
frames and `max(1, 800 // 30) = 26` unvoiced frames, so the trigger window
spans 180 ms of frames and the close window 780 ms — the truncated
equivalents of the spec's 200 ms and 800 ms. -/
theorem default_thresholds_amended :
    defaultConfig.voicedThreshold * FRAME_MS = 180 ∧
    defaultConfig.unvoicedThreshold * FRAME_MS = 780 := by
  decide

/-- Helper: a dispatched result always stems from a segment that passed
the `MIN_SPEECH_MS` guard, and it carries that segment's timestamps. -/
theorem transcribeSegment_some_dur (seg : RawSeg) (t : Option String)
    (spk : String) (r : Result) (h : transcribeSegment seg t spk = some r) :
    MIN_SPEECH_MS ≤ r.endMs - r.startMs := by
  unfold transcribeSegment at h
  by_cases hg : seg.endMs - seg.startMs < MIN_SPEECH_MS
  · rw [if_pos hg] at h
    exact absurd h (by simp)
  · rw [if_neg hg] at h
    cases t with
    | none => exact absurd h (by simp)
    | some t2 =>
      simp only [] at h
      by_cases ht : t2 = ""
      · rw [if_pos ht] at h
        exact absurd h (by simp)
      · rw [if_neg ht] at h
        injection h with h2
        subst h2
        exact not_lt.mp hg

/-- Helper: a transcription exception (`none` outcome) never dispatches. -/
theorem transcribeSegment_exc (seg : RawSeg) (spk : String) :
    transcribeSegment seg none spk = none := by
  unfold transcribeSegment
  split <;> rfl

/-- Helper: every dispatched result arises from some segment index. -/
theorem mem_processSegments (spk : String) (backend : ℕ → Option String) :
    ∀ (segs : List RawSeg) (k : ℕ) (x : Result),
      x ∈ processSegments spk backend segs k →
      ∃ j, j < segs.length ∧
        transcribeSegment (segs.getD j dummySeg) (backend (k + j)) spk = some x := by
  intro segs
  induction segs with
  | nil => intro k x hx; simp [processSegments] at hx
  | cons seg rest ih =>
    intro k x hx
    simp only [processSegments, List.mem_append] at hx
    cases hx with
    | inl h =>
      refine ⟨0, by simp, ?_⟩
      simpa using h
    | inr h =>
      obtain ⟨j, hj, he⟩ := ih (k + 1) x h
      refine ⟨j + 1, by simpa using hj, ?_⟩
      have hk : k + (j + 1) = (k + 1) + j := by omega
      rw [hk]
      simpa using he

/-- Helper: a successful transcription at index `j` is dispatched. -/
theorem processSegments_mem_of (spk : String) (backend : ℕ → Option String)
    (r : Result) :
    ∀ (segs : List RawSeg) (k j : ℕ), j < segs.length →
      transcribeSegment (segs.getD j dummySeg) (backend (k + j)) spk = some r →
      r ∈ processSegments spk backend segs k := by
  intro segs
  induction segs with
  | nil => intro k j hj; simp at hj
  | cons seg rest ih =>
    intro k j hj he
    cases j with
    | zero =>
      simp only [List.getD_cons_zero, Nat.add_zero] at he
      simp [processSegments, he]
    | succ j =>
      simp only [processSegments, List.mem_append]
      right
      refine ih (k + 1) j (by simpa using hj) ?_
      have hk : (k + 1) + j = k + (j + 1) := by omega
      rw [hk]
      simpa using he

/-- C2: for any frame sequence, any wall-clock readings, and any backend
outcomes, no dispatched result has a duration below `MIN_SPEECH_MS` — the
guard at the top of `_transcribe_segment` filters both the mid-stream close
path and the end-of-stream flush path. -/
theorem no_short_segment_dispatched (cfg : EPConfig) (ss flushNow : ℚ)
    (frames : List Frame) (spk : String) (backend : ℕ → Option String)
    (r : Result) (hr : r ∈ runPipeline cfg ss flushNow frames spk backend) :
    MIN_SPEECH_MS ≤ r.endMs - r.startMs := by
  unfold runPipeline at hr
  obtain ⟨j, hj, he⟩ :=
    mem_processSegments spk backend (epSegments cfg ss flushNow frames) 0 r hr
  exact transcribeSegment_some_dur _ _ _ _ he

/-- C2 witness: `no_short_segment_dispatched` on a concrete two-frame run
that opens and closes one 300 ms segment. -/
theorem no_short_segment_dispatched_witness :
    MIN_SPEECH_MS ≤ (Result.mk "Speaker 1" "hi" 0 300).endMs
      - (Result.mk "Speaker 1" "hi" 0 300).startMs := by
  refine no_short_segment_dispatched ⟨1, 1, 1⟩ 0 0
    [⟨0, true, 30⟩, ⟨1, false, 300⟩] "Speaker 1" (fun _ => some "hi")
    ⟨"Speaker 1", "hi", 0, 300⟩ ?_
  have h : runPipeline ⟨1, 1, 1⟩ 0 0 [⟨0, true, 30⟩, ⟨1, false, 300⟩]
      "Speaker 1" (fun _ => some "hi") = [⟨"Speaker 1", "hi", 0, 300⟩] := by
    norm_num [runPipeline, processSegments, epSegments, epRunState, epRun,
      epStep, epFlush, pushRing, pyInt, transcribeSegment, initState,
      FRAME_MS, MIN_SPEECH_MS]
    rfl
  rw [h]
  exact List.mem_singleton.mpr rfl

/-- C8: with an exception on segment `K` (`backend K = none`), nothing is
dispatched for segment `K`, while segment `K + 1`, when its transcription
succeeds, is still dispatched — the loop processes every segment no matter
what earlier outcomes were. -/
theorem segment_fault_isolation (spk : String) (backend : ℕ → Option String)
    (segs : List RawSeg) (K : ℕ) (r : Result) (hK : backend K = none) :
    (∀ x ∈ processSegments spk backend segs 0, ∃ j, j ≠ K ∧ j < segs.length ∧
        transcribeSegment (segs.getD j dummySeg) (backend j) spk = some x) ∧
    (K + 1 < segs.length →
      transcribeSegment (segs.getD (K + 1) dummySeg) (backend (K + 1)) spk = some r →
      r ∈ processSegments spk backend segs 0) := by
  constructor
  · intro x hx
    obtain ⟨j, hj, he⟩ := mem_processSegments spk backend segs 0 x hx
    rw [Nat.zero_add] at he
    refine ⟨j, ?_, hj, he⟩
    intro hjk
    rw [hjk, hK, transcribeSegment_exc] at he
    exact absurd he (by simp)
  · intro hlen he
    refine processSegments_mem_of spk backend r segs 0 (K + 1) hlen ?_
    rw [Nat.zero_add]
    exact he

/-- C8 witness: `segment_fault_isolation` on two segments where the first
transcription raises and the second succeeds. -/
theorem segment_fault_isolation_witness :
    (⟨"S", "ok", 0, 300⟩ : Result) ∈ processSegments "S"
      (fun k => if k = 0 then none else some "ok")
      [⟨[], 0, 300⟩, ⟨[], 0, 300⟩] 0 :=
  (segment_fault_isolation "S" (fun k => if k = 0 then none else some "ok")
    [⟨[], 0, 300⟩, ⟨[], 0, 300⟩] 0 ⟨"S", "ok", 0, 300⟩ rfl).2
    (by decide) (by decide)

/-- C7: audio shorter than `MIN_SAMPLES` bypasses embedding entirely —
the tracker state is unchanged, the embedding model is not invoked, and
the returned label is the first profile's label, or `"Speaker 1"` when the
bank is empty. -/
theorem short_audio_bypass (s : TrackerState) (n : ℕ) (env : EmbedEnv)
    (h : n < MIN_SAMPLES) :
    (assign s n env).2.1 = s ∧ (assign s n env).2.2 = false ∧
    (s.speakers = [] → (assign s n env).1 = "Speaker 1") ∧
    (∀ p rest, s.speakers = p :: rest → (assign s n env).1 = p.1) := by
  unfold assign
  rw [if_pos h]
  refine ⟨rfl, rfl, ?_, ?_⟩
  · intro he; simp [he, firstLabel]
  · intro p rest he; simp [he, firstLabel]

/-- C7 witness: `short_audio_bypass` evaluated on an empty bank and on a
one-profile bank with a 0-sample input. -/
theorem short_audio_bypass_witness :
    (assign ⟨false, false, []⟩ 0 ⟨true, none⟩).1 = "Speaker 1" ∧
    (assign ⟨false, false, [("A", [1])]⟩ 0 ⟨true, none⟩).1 = "A" ∧
    (assign ⟨false, false, [("A", [1])]⟩ 0 ⟨true, none⟩).2.1
      = ⟨false, false, [("A", [(1 : ℝ)])]⟩ := by
  refine ⟨?_, ?_, ?_⟩
  · exact (short_audio_bypass ⟨false, false, []⟩ 0 ⟨true, none⟩ (by decide)).2.2.1 rfl
  · exact (short_audio_bypass ⟨false, false, [("A", [1])]⟩ 0 ⟨true, none⟩
      (by decide)).2.2.2 ("A", [1]) [] rfl
  · exact (short_audio_bypass ⟨false, false, [("A", [1])]⟩ 0 ⟨true, none⟩
      (by decide)).1

/-- Helper: `epRun` distributes over list append. -/
theorem epRun_append (cfg : EPConfig) (ss : ℚ) :
    ∀ (xs ys : List Frame) (s : EPState),
      epRun cfg ss s (xs ++ ys) =
        ((epRun cfg ss (epRun cfg ss s xs).1 ys).1,
         (epRun cfg ss s xs).2 ++ (epRun cfg ss (epRun cfg ss s xs).1 ys).2) := by
  intro xs
  induction xs with
  | nil => intro ys s; simp [epRun]
  | cons x xs ih =>
    intro ys s
    simp [epRun, ih, List.append_assoc]

/-- Helper: while LISTENING, a run of voiced frames that stays strictly
below the trigger threshold leaves the endpointer in LISTENING with the
counter advanced, the open-segment buffer untouched, and emits nothing. -/
theorem epRun_voiced_low (cfg : EPConfig) (ss : ℚ) :
    ∀ (fs : List Frame) (s : EPState), s.triggered = false →
      (∀ f ∈ fs, f.isSpeech = true) →
      s.numVoiced + fs.length < cfg.voicedThreshold →
      (epRun cfg ss s fs).1.triggered = false ∧
      (epRun cfg ss s fs).1.numVoiced = s.numVoiced + fs.length ∧
      (epRun cfg ss s fs).1.speech = s.speech ∧
      (epRun cfg ss s fs).2 = [] := by
  intro fs
  induction fs with
  | nil => intro s h1 _ _; simp [epRun, h1]
  | cons f fs ih =>
    intro s h1 h2 h3
    have hsp : f.isSpeech = true := h2 f (by simp)
    have hnv : ¬ (cfg.voicedThreshold ≤ s.numVoiced + 1) := by
      simp only [List.length_cons] at h3
      omega
    have hstep : epStep cfg ss s f =
        ({ s with ring := pushRing cfg.padFrames s.ring f.data, numVoiced := s.numVoiced + 1 }, none) := by
      simp [epStep, h1, hsp, hnv]
    have hlen : (s.numVoiced + 1) + fs.length < cfg.voicedThreshold := by
      simp only [List.length_cons] at h3
      omega
    obtain ⟨ih1, ih2, ih3, ih4⟩ :=
      ih { s with ring := pushRing cfg.padFrames s.ring f.data, numVoiced := s.numVoiced + 1 }
        (by simp [h1]) (fun g hg => h2 g (by simp [hg])) (by simpa using hlen)
    simp only [epRun, hstep]
    refine ⟨ih1, ?_, ih3, by simp [ih4]⟩
    simp only [ih2]
    simp
    omega

/-- Helper: while LISTENING, a run of voiced frames that exactly reaches
the trigger threshold ends in CAPTURING and emits nothing. -/
theorem epRun_voiced_trigger (cfg : EPConfig) (ss : ℚ) :
    ∀ (fs : List Frame) (s : EPState), s.triggered = false →
      (∀ f ∈ fs, f.isSpeech = true) →
      s.numVoiced + fs.length = cfg.voicedThreshold → fs ≠ [] →
      (epRun cfg ss s fs).1.triggered = true ∧
      (epRun cfg ss s fs).2 = [] := by
  intro fs
  induction fs with
  | nil => intro s _ _ _ hne; exact absurd rfl hne
  | cons f fs ih =>
    intro s h1 h2 h3 _
    have hsp : f.isSpeech = true := h2 f (by simp)
    by_cases hv : cfg.voicedThreshold ≤ s.numVoiced + 1
    · have hfs : fs = [] := by
        have : fs.length = 0 := by
          simp only [List.length_cons] at h3
          omega
        exact List.length_eq_zero.mp this
      subst hfs
      have hstep : epStep cfg ss s f =
          (⟨[], pushRing cfg.padFrames s.ring f.data, true, s.numVoiced + 1, 0,
            f.now - ss - ((pushRing cfg.padFrames s.ring f.data).length : ℚ)
              * (FRAME_MS : ℚ)⟩, none) := by
        simp [epStep, h1, hsp, hv]
      simp [epRun, hstep]
    · have hstep : epStep cfg ss s f =
          ({ s with ring := pushRing cfg.padFrames s.ring f.data, numVoiced := s.numVoiced + 1 }, none) := by
        simp [epStep, h1, hsp, hv]
      have hne2 : fs ≠ [] := by
        intro he
        subst he
        simp only [List.length_cons, List.length_nil] at h3
        omega
      obtain ⟨ih1, ih2⟩ :=
        ih { s with ring := pushRing cfg.padFrames s.ring f.data, numVoiced := s.numVoiced + 1 }
          (by simp [h1]) (fun g hg => h2 g (by simp [hg]))
          (by simp only [List.length_cons] at h3; simp; omega) hne2
      simp only [epRun, hstep]
      exact ⟨ih1, by simp [ih2]⟩

/-- C4: from the initial LISTENING state, `voiced_trigger_frames - 1`
voiced frames followed by one unvoiced frame never open a segment — no
prefix of the run is CAPTURING, nothing is emitted, and the unvoiced frame
resets the consecutive-voiced counter to zero — while exactly
`voiced_trigger_frames` voiced frames end in CAPTURING (one open segment,
nothing emitted yet). -/
theorem trigger_hysteresis_boundary (cfg : EPConfig) (ss : ℚ)
    (hvt : 1 ≤ cfg.voicedThreshold) :
    (∀ (fs : List Frame) (g : Frame), (∀ f ∈ fs, f.isSpeech = true) →
      fs.length = cfg.voicedThreshold - 1 → g.isSpeech = false →
      (∀ k : ℕ, (epRunState cfg ss ((fs ++ [g]).take k)).triggered = false) ∧
      (epRun cfg ss initState (fs ++ [g])).2 = [] ∧
      (epRunState cfg ss (fs ++ [g])).numVoiced = 0) ∧
    (∀ gs : List Frame, (∀ f ∈ gs, f.isSpeech = true) →
      gs.length = cfg.voicedThreshold →
      (epRunState cfg ss gs).triggered = true ∧
      (epRun cfg ss initState gs).2 = []) := by
  constructor
  · intro fs g hvoiced hlen hg
    have hlow : (0 : ℕ) + fs.length < cfg.voicedThreshold := by omega
    obtain ⟨t1, t2, t3, t4⟩ :=
      epRun_voiced_low cfg ss fs initState rfl hvoiced hlow
    have hstep : epStep cfg ss (epRun cfg ss initState fs).1 g =
        ({ (epRun cfg ss initState fs).1 with ring := pushRing cfg.padFrames (epRun cfg ss initState fs).1.ring g.data, numVoiced := 0 }, none) := by
      simp [epStep, t1, hg]
    have hwhole : epRun cfg ss initState (fs ++ [g]) =
        ({ (epRun cfg ss initState fs).1 with ring := pushRing cfg.padFrames (epRun cfg ss initState fs).1.ring g.data, numVoiced := 0 }, (epRun cfg ss initState fs).2) := by
      rw [epRun_append]
      simp [epRun, hstep]
    refine ⟨?_, ?_, ?_⟩
    · intro k
      by_cases hk : k ≤ fs.length
      · rw [List.take_append_of_le_length hk]
        have hsub : ∀ f ∈ fs.take k, f.isSpeech = true :=
          fun f hf => hvoiced f (List.take_subset k fs hf)
        have : (0 : ℕ) + (fs.take k).length < cfg.voicedThreshold := by
          simp only [List.length_take]
          omega
        exact (epRun_voiced_low cfg ss (fs.take k) initState rfl hsub this).1
      · have hk2 : (fs ++ [g]).length ≤ k := by
          simp only [List.length_append, List.length_singleton]
          omega
        rw [List.take_of_length_le hk2]
        unfold epRunState
        rw [hwhole]
        exact t1
    · rw [hwhole]
      exact t4
    · unfold epRunState
      rw [hwhole]
  · intro gs hvoiced hlen
    have hne : gs ≠ [] := by
      intro he
      subst he
      simp at hlen
      omega
    obtain ⟨w1, w2⟩ :=
      epRun_voiced_trigger cfg ss gs initState rfl hvoiced
        (by simpa [initState] using hlen) hne
    exact ⟨w1, w2⟩

/-- C4 witness: `trigger_hysteresis_boundary` with threshold 2 on a
one-voiced-then-unvoiced run and on a two-voiced run. -/
theorem trigger_hysteresis_boundary_witness :
    (epRunState ⟨2, 1, 1⟩ 0 [⟨0, true, 0⟩, ⟨1, false, 0⟩]).triggered = false ∧
    (epRun ⟨2, 1, 1⟩ 0 initState [⟨0, true, 0⟩, ⟨1, false, 0⟩]).2 = [] ∧
    (epRunState ⟨2, 1, 1⟩ 0 [⟨0, true, 0⟩, ⟨1, false, 0⟩]).numVoiced = 0 ∧
    (epRunState ⟨2, 1, 1⟩ 0 [⟨2, true, 0⟩, ⟨3, true, 0⟩]).triggered = true ∧
    (epRun ⟨2, 1, 1⟩ 0 initState [⟨2, true, 0⟩, ⟨3, true, 0⟩]).2 = [] := by
  have h := trigger_hysteresis_boundary ⟨2, 1, 1⟩ 0 (by decide)
  obtain ⟨h1, h2, h3⟩ := h.1 [⟨0, true, 0⟩] ⟨1, false, 0⟩
    (by intro f hf; simp at hf; subst hf; rfl) rfl rfl
  obtain ⟨h4, h5⟩ := h.2 [⟨2, true, 0⟩, ⟨3, true, 0⟩]
    (by intro f hf; simp at hf; rcases hf with hf | hf <;> (subst hf; rfl)) rfl
  exact ⟨by simpa using h1 2, by simpa using h2, by simpa using h3, h4, h5⟩

/-- Helper: the ring push keeps the buffer within its capacity. -/
theorem pushRing_le (pad : ℕ) (ring : List ℕ) (d : ℕ)
    (h : ring.length ≤ pad) : (pushRing pad ring d).length ≤ pad := by
  unfold pushRing
  by_cases hc : pad < (ring ++ [d]).length
  · rw [if_pos hc]
    simp only [List.length_tail, List.length_append, List.length_singleton] at *
    omega
  · rw [if_neg hc]
    simp only [List.length_append, List.length_singleton] at *
    omega

/-- Helper: one loop iteration keeps the ring buffer within capacity. -/
theorem epStep_ring_le (cfg : EPConfig) (ss : ℚ) (s : EPState) (f : Frame)
    (h : s.ring.length ≤ cfg.padFrames) :
    ((epStep cfg ss s f).1).ring.length ≤ cfg.padFrames := by
  unfold epStep
  split_ifs <;> try simpa using h
  all_goals dsimp only
  all_goals try exact pushRing_le _ _ _ h
  all_goals split_ifs <;> simp [pushRing_le _ _ _ h, h]

/-- Helper: the ring buffer stays within capacity along any run. -/
theorem epRun_ring_le (cfg : EPConfig) (ss : ℚ) :
    ∀ (fs : List Frame) (s : EPState), s.ring.length ≤ cfg.padFrames →
      (epRun cfg ss s fs).1.ring.length ≤ cfg.padFrames := by
  intro fs
  induction fs with
  | nil => intro s h; simpa [epRun] using h
  | cons f fs ih =>
    intro s h
    simp only [epRun]
    exact ih _ (epStep_ring_le cfg ss s f h)

/-- C5: whenever a step moves the endpointer from LISTENING to CAPTURING,
the opened segment's frame list is exactly the ring-buffer contents
(oldest to newest, the triggering frame included), its `start_ms` is the
trigger moment minus the carried-over frame count times the frame
duration, and that count is at most `pre_roll_frames`, so `start_ms`
precedes the trigger moment by at most `pre_roll_frames` frame
durations. -/
theorem preroll_start_bound (cfg : EPConfig) (ss : ℚ) (fs : List Frame)
    (f : Frame)
    (h1 : (epRunState cfg ss fs).triggered = false)
    (h2 : ((epStep cfg ss (epRunState cfg ss fs) f).1).triggered = true) :
    ((epStep cfg ss (epRunState cfg ss fs) f).1).speech
      = pushRing cfg.padFrames (epRunState cfg ss fs).ring f.data ∧
    ((epStep cfg ss (epRunState cfg ss fs) f).1).segmentStartMs
      = f.now - ss
        - (((epStep cfg ss (epRunState cfg ss fs) f).1).speech.length : ℚ)
          * (FRAME_MS : ℚ) ∧
    ((epStep cfg ss (epRunState cfg ss fs) f).1).speech.length
      ≤ cfg.padFrames ∧
    (f.now - ss) - ((epStep cfg ss (epRunState cfg ss fs) f).1).segmentStartMs
      ≤ (cfg.padFrames : ℚ) * (FRAME_MS : ℚ) := by
  by_cases hsp : f.isSpeech = true
  · by_cases hv : cfg.voicedThreshold ≤ (epRunState cfg ss fs).numVoiced + 1
    · have hstep : epStep cfg ss (epRunState cfg ss fs) f =
          (⟨[], pushRing cfg.padFrames (epRunState cfg ss fs).ring f.data, true,
            (epRunState cfg ss fs).numVoiced + 1, 0,
            f.now - ss
              - ((pushRing cfg.padFrames (epRunState cfg ss fs).ring f.data).length : ℚ)
                * (FRAME_MS : ℚ)⟩, none) := by
        simp [epStep, h1, hsp, hv]
      have hring : (epRunState cfg ss fs).ring.length ≤ cfg.padFrames :=
        epRun_ring_le cfg ss fs initState (by simp [initState])
      have hlen :
          (pushRing cfg.padFrames (epRunState cfg ss fs).ring f.data).length
            ≤ cfg.padFrames := pushRing_le _ _ _ hring
      rw [hstep]
      refine ⟨rfl, rfl, hlen, ?_⟩
      rw [sub_sub_cancel]
      have hcast :
          ((pushRing cfg.padFrames (epRunState cfg ss fs).ring f.data).length : ℚ)
            ≤ (cfg.padFrames : ℚ) := Nat.cast_le.mpr hlen
      exact mul_le_mul_of_nonneg_right hcast (by norm_num [FRAME_MS])
    · exfalso
      have : ((epStep cfg ss (epRunState cfg ss fs) f).1).triggered = false := by
        simp [epStep, h1, hsp, hv]
      rw [this] at h2
      exact Bool.false_ne_true h2
  · exfalso
    have : ((epStep cfg ss (epRunState cfg ss fs) f).1).triggered = false := by
      simp [epStep, h1, hsp]
    rw [this] at h2
    exact Bool.false_ne_true h2

/-- C5 witness: `preroll_start_bound` on a single triggering frame with
capacity-1 pre-roll. -/
theorem preroll_start_bound_witness :
    ((epStep ⟨1, 1, 1⟩ 0 (epRunState ⟨1, 1, 1⟩ 0 []) ⟨5, true, 30⟩).1).speech
      = pushRing 1 (epRunState ⟨1, 1, 1⟩ 0 []).ring 5 ∧
    ((epStep ⟨1, 1, 1⟩ 0 (epRunState ⟨1, 1, 1⟩ 0 []) ⟨5, true, 30⟩).1).segmentStartMs
      = (30 : ℚ) - 0
        - (((epStep ⟨1, 1, 1⟩ 0 (epRunState ⟨1, 1, 1⟩ 0 []) ⟨5, true, 30⟩).1).speech.length : ℚ)
          * (FRAME_MS : ℚ) ∧
    ((epStep ⟨1, 1, 1⟩ 0 (epRunState ⟨1, 1, 1⟩ 0 []) ⟨5, true, 30⟩).1).speech.length ≤ 1 ∧
    ((30 : ℚ) - 0)
      - ((epStep ⟨1, 1, 1⟩ 0 (epRunState ⟨1, 1, 1⟩ 0 []) ⟨5, true, 30⟩).1).segmentStartMs
      ≤ ((1 : ℕ) : ℚ) * (FRAME_MS : ℚ) :=
  preroll_start_bound ⟨1, 1, 1⟩ 0 [] ⟨5, true, 30⟩ rfl rfl

/-- C1 counterexample: an inference failure after a successful model load
does not degrade the tracker permanently.  The first call (model loads,
inference raises) returns the default label, yet leaves `_load_failed`
false, and the next call invokes the embedding model again. -/
theorem tracker_degradation_cex :
    (assign ⟨false, false, []⟩ 1600 ⟨true, none⟩).1 = "Speaker 1" ∧
    (assign ⟨false, false, []⟩ 1600 ⟨true, none⟩).2.2 = true ∧
    ((assign ⟨false, false, []⟩ 1600 ⟨true, none⟩).2.1).loadFailed = false ∧
    (assign ((assign ⟨false, false, []⟩ 1600 ⟨true, none⟩).2.1) 1600
      ⟨true, some [1]⟩).2.2 = true := by
  refine ⟨rfl, rfl, rfl, rfl⟩

/-- C1 amended: permanent degradation is tied to `_load_failed`, which is
set only when loading the embedding model fails.  Once `_load_failed` is
set, every call leaves the tracker unchanged, never attempts embedding,
and returns `"Speaker 1"` (the bank being empty in any degraded session);
and a model-load failure on a long-enough input produces exactly that
degraded state.  An inference failure after a successful load returns the
default label for that call only (see the counterexample). -/
theorem tracker_degradation_amended (s : TrackerState) (n : ℕ)
    (env : EmbedEnv) :
    (s.loadFailed = true →
      (assign s n env).2.1 = s ∧ (assign s n env).2.2 = false ∧
      (s.speakers = [] → (assign s n env).1 = "Speaker 1")) ∧
    (s.loadFailed = false → s.modelLoaded = false → env.loadOk = false →
      MIN_SAMPLES ≤ n →
      assign s n env = ("Speaker 1", ⟨false, true, s.speakers⟩, false)) := by
  constructor
  · intro hl
    unfold assign
    by_cases hn : n < MIN_SAMPLES
    · rw [if_pos hn]
      exact ⟨rfl, rfl, fun he => by simp [he, firstLabel]⟩
    · rw [if_neg hn, if_pos hl]
      exact ⟨rfl, rfl, fun _ => rfl⟩
  · intro hl hm hok hn
    unfold assign
    rw [if_neg (not_lt.mpr hn), if_neg (by simp [hl])]
    have he : embedCall s env = (⟨false, true, s.speakers⟩, none, false) := by
      simp [embedCall, loadModel, hm, hl, hok]
    rw [he]

/-- C1 witness: `tracker_degradation_amended` evaluated on a degraded
tracker and on a fresh tracker whose model load fails. -/
theorem tracker_degradation_witness :
    ((assign ⟨false, true, []⟩ 0 ⟨true, none⟩).2.1 = ⟨false, true, []⟩ ∧
     (assign ⟨false, true, []⟩ 0 ⟨true, none⟩).2.2 = false ∧
     (assign ⟨false, true, []⟩ 0 ⟨true, none⟩).1 = "Speaker 1") ∧
    assign ⟨false, false, []⟩ 1600 ⟨false, none⟩
      = ("Speaker 1", ⟨false, true, []⟩, false) := by
  constructor
  · have h := (tracker_degradation_amended ⟨false, true, []⟩ 0 ⟨true, none⟩).1 rfl
    exact ⟨h.1, h.2.1, h.2.2 rfl⟩
  · exact (tracker_degradation_amended ⟨false, false, []⟩ 1600 ⟨false, none⟩).2
      rfl rfl rfl (by decide)

/-- Helper: the dot product is symmetric. -/
theorem dot_comm : ∀ a b : List ℝ, dot a b = dot b a := by
  intro a
  induction a with
  | nil => intro b; cases b <;> simp [dot]
  | cons x xs ih =>
    intro b
    cases b with
    | nil => simp [dot]
    | cons y ys => simp only [dot, ih]; ring

/-- Helper: a dot product of a vector with itself is nonnegative. -/
theorem dot_self_nonneg : ∀ a : List ℝ, 0 ≤ dot a a := by
  intro a
  induction a with
  | nil => simp [dot]
  | cons x xs ih => simp only [dot]; nlinarith [sq_nonneg x]

/-- Helper: a square comparison against a nonnegative bound transfers to
the values themselves. -/
theorem le_of_sq_le_of_nonneg (u v : ℝ) (hu : 0 ≤ u) (h : v ^ 2 ≤ u ^ 2) :
    v ≤ u := by
  have hs := Real.sqrt_le_sqrt h
  rw [Real.sqrt_sq_eq_abs, Real.sqrt_sq_eq_abs] at hs
  calc v ≤ |v| := le_abs_self v
    _ ≤ |u| := hs
    _ = u := abs_of_nonneg hu

/-- Helper: Cauchy-Schwarz for the list dot product. -/
theorem dot_sq_le : ∀ a b : List ℝ, (dot a b) ^ 2 ≤ dot a a * dot b b := by
  intro a
  induction a with
  | nil => intro b; cases b <;> simp [dot]
  | cons x xs ih =>
    intro b
    cases b with
    | nil => simp [dot, mul_nonneg (dot_self_nonneg (x :: xs))]
    | cons y ys =>
      have ihb := ih ys
      have ha := dot_self_nonneg xs
      have hb := dot_self_nonneg ys
      have hu : (0 : ℝ) ≤ x ^ 2 * dot ys ys + dot xs xs * y ^ 2 := by positivity
      have hsq : (2 * x * y * dot xs ys) ^ 2
          ≤ (x ^ 2 * dot ys ys + dot xs xs * y ^ 2) ^ 2 := by
        nlinarith [sq_nonneg (x ^ 2 * dot ys ys - dot xs xs * y ^ 2),
          mul_nonneg (mul_nonneg (sq_nonneg x) (sq_nonneg y))
            (sub_nonneg.mpr ihb)]
      have key : 2 * x * y * dot xs ys
          ≤ x ^ 2 * dot ys ys + dot xs xs * y ^ 2 :=
        le_of_sq_le_of_nonneg _ _ hu hsq
      simp only [dot]
      nlinarith [key, ihb]

/-- Helper: the norm squares back to the self dot product. -/
theorem mul_self_vnorm (a : List ℝ) : vnorm a * vnorm a = dot a a :=
  Real.mul_self_sqrt (dot_self_nonneg a)

/-- Helper: the absolute dot product is bounded by the norm product. -/
theorem abs_dot_le (a b : List ℝ) : |dot a b| ≤ vnorm a * vnorm b := by
  have h := dot_sq_le a b
  calc |dot a b| = Real.sqrt ((dot a b) ^ 2) := (Real.sqrt_sq_eq_abs _).symm
    _ ≤ Real.sqrt (dot a a * dot b b) := Real.sqrt_le_sqrt h
    _ = vnorm a * vnorm b := by
        rw [Real.sqrt_mul (dot_self_nonneg a)]
        rfl

/-- Helper: cosine similarity always lies within the unit interval. -/
theorem abs_cosineSim_le_one (a b : List ℝ) : |cosineSim a b| ≤ 1 := by
  unfold cosineSim
  by_cases hz : vnorm a = 0 ∨ vnorm b = 0
  · rw [if_pos hz]; simp
  · rw [if_neg hz]
    push_neg at hz
    have hpos : 0 < vnorm a * vnorm b :=
      mul_pos (lt_of_le_of_ne (Real.sqrt_nonneg _) (Ne.symm hz.1))
        (lt_of_le_of_ne (Real.sqrt_nonneg _) (Ne.symm hz.2))
    rw [abs_div, abs_of_pos hpos]
    exact div_le_one_of_le₀ (abs_dot_le a b) (le_of_lt hpos)

/-- C6 counterexample: the similarity of the zero vector with itself is
`0.0`, not `1.0` — the zero-norm guard fires before the self-similarity
formula, so the claim's unconditional `sim(a, a) = 1.0` fails at `a = [0]`. -/
theorem cosineSim_self_zero_cex :
    cosineSim [(0 : ℝ)] [(0 : ℝ)] = 0 ∧ (0 : ℝ) ≠ 1 := by
  constructor
  · have h : vnorm [(0 : ℝ)] = 0 := by
      simp [vnorm, dot]
    simp [cosineSim, h]
  · norm_num

/-- C6 amended: `_cosine_sim` is symmetric, bounded in `[-1, 1]`, equals
`1.0` on any vector of nonzero norm paired with itself, and equals `0.0`
whenever either argument has zero norm (including the zero vector paired
with itself). -/
theorem cosineSim_props_amended (a b : List ℝ) :
    cosineSim a b = cosineSim b a ∧
    -1 ≤ cosineSim a b ∧ cosineSim a b ≤ 1 ∧
    (vnorm a ≠ 0 → cosineSim a a = 1) ∧
    ((vnorm a = 0 ∨ vnorm b = 0) → cosineSim a b = 0) := by
  refine ⟨?_, (abs_le.mp (abs_cosineSim_le_one a b)).1,
    (abs_le.mp (abs_cosineSim_le_one a b)).2, ?_, ?_⟩
  · by_cases ha : vnorm a = 0 <;> by_cases hb : vnorm b = 0 <;>
      simp [cosineSim, ha, hb, dot_comm a b, mul_comm]
  · intro ha
    have hd : dot a a ≠ 0 := by
      intro h0
      exact ha (by simp [vnorm, h0])
    rw [cosineSim, if_neg (by simp [ha]), mul_self_vnorm]
    exact div_self hd
  · intro h
    simp [cosineSim, h]

/-- C6 witness: `cosineSim_props_amended` evaluated at the unit vector
`[1]`, whose norm is nonzero, giving self-similarity exactly 1. -/
theorem cosineSim_props_witness : cosineSim [(1 : ℝ)] [(1 : ℝ)] = 1 := by
  have h : vnorm [(1 : ℝ)] ≠ 0 := by
    have hd : dot [(1 : ℝ)] [(1 : ℝ)] = 1 := by norm_num [dot]
    rw [vnorm, hd, Real.sqrt_one]
    norm_num
  exact (cosineSim_props_amended [(1 : ℝ)] [(1 : ℝ)]).2.2.2.1 h

/-- Helper: similarity indices shift across a cons cell. -/
theorem simAt_cons (p : String × List ℝ) (sp : List (String × List ℝ))
    (e : List ℝ) (k : ℕ) : simAt (p :: sp) e (k + 1) = simAt sp e k := by
  simp [simAt]

/-- Helper: labels shift across a cons cell. -/
theorem labelAt_cons (p : String × List ℝ) (sp : List (String × List ℝ))
    (k : ℕ) : labelAt (p :: sp) (k + 1) = labelAt sp k := by
  simp [labelAt]

/-- Helper: centroids shift across a cons cell. -/
theorem centroidAt_cons (p : String × List ℝ) (sp : List (String × List ℝ))
    (k : ℕ) : centroidAt (p :: sp) (k + 1) = centroidAt sp k := by
  simp [centroidAt]

/-- Helper: the scan keeps its accumulator when no profile beats it. -/
theorem bestFold_stay (e : List ℝ) :
    ∀ (sp : List (String × List ℝ)) (acc : ℝ × Option String),
      (∀ k, k < sp.length → simAt sp e k ≤ acc.1) →
      sp.foldl (bestStep e) acc = acc := by
  intro sp
  induction sp with
  | nil => intro acc _; simp
  | cons p sp ih =>
    intro acc hle
    have h0 : cosineSim e p.2 ≤ acc.1 := by
      have := hle 0 (by simp)
      simpa [simAt] using this
    simp only [List.foldl_cons]
    have hstep : bestStep e acc p = acc := by
      unfold bestStep
      rw [if_neg (not_lt.mpr h0)]
    rw [hstep]
    refine ih acc (fun k hk => ?_)
    have := hle (k + 1) (by simpa using hk)
    simpa [simAt] using this

/-- Helper: against a strictly lower accumulator, the scan returns the
similarity and label of the first profile attaining the maximum. -/
theorem bestFold_argmax (e : List ℝ) :
    ∀ (sp : List (String × List ℝ)) (acc : ℝ × Option String) (j : ℕ),
      j < sp.length →
      acc.1 < simAt sp e j →
      (∀ k, k < sp.length → simAt sp e k ≤ simAt sp e j) →
      (∀ k, k < j → simAt sp e k < simAt sp e j) →
      sp.foldl (bestStep e) acc = (simAt sp e j, some (labelAt sp j)) := by
  intro sp
  induction sp with
  | nil => intro acc j hj; simp at hj
  | cons p sp ih =>
    intro acc j hj hacc hmax hfirst
    cases j with
    | zero =>
      have hstep : bestStep e acc p = (cosineSim e p.2, some p.1) := by
        unfold bestStep
        rw [if_pos (by simpa [simAt] using hacc)]
      simp only [List.foldl_cons, hstep]
      rw [bestFold_stay e sp (cosineSim e p.2, some p.1) ?_]
      · simp [simAt, labelAt]
      · intro k hk
        have := hmax (k + 1) (by simpa using hk)
        simpa [simAt] using this
    | succ j =>
      have hnext : (bestStep e acc p).1 < simAt sp e j := by
        unfold bestStep
        by_cases hc : cosineSim e p.2 > acc.1
        · rw [if_pos hc]
          have := hfirst 0 (by omega)
          simpa [simAt] using this
        · rw [if_neg hc]
          simpa [simAt] using hacc
      have hj2 : j < sp.length := by simpa using hj
      have hres := ih (bestStep e acc p) j hj2 hnext
        (fun k hk => by
          have := hmax (k + 1) (by simpa using hk)
          simpa [simAt] using this)
        (fun k hk => by
          have := hfirst (k + 1) (by omega)
          simpa [simAt] using this)
      simp only [List.foldl_cons]
      rw [hres, simAt_cons, labelAt_cons]

/-- Helper: when every profile similarity is below the threshold, so is
the scan result. -/
theorem bestFold_lt (e : List ℝ) (c : ℝ) :
    ∀ (sp : List (String × List ℝ)) (acc : ℝ × Option String),
      acc.1 < c → (∀ k, k < sp.length → simAt sp e k < c) →
      (sp.foldl (bestStep e) acc).1 < c := by
  intro sp
  induction sp with
  | nil => intro acc hacc _; simpa using hacc
  | cons p sp ih =>
    intro acc hacc hlt
    simp only [List.foldl_cons]
    refine ih (bestStep e acc p) ?_ (fun k hk => ?_)
    · unfold bestStep
      by_cases hc : cosineSim e p.2 > acc.1
      · rw [if_pos hc]
        have := hlt 0 (by simp)
        simpa [simAt] using this
      · rw [if_neg hc]
        exact hacc
    · have := hlt (k + 1) (by simpa using hk)
      simpa [simAt] using this

/-- Helper: the label lookup update hits exactly the first index carrying
that label. -/
theorem updateFirst_set :
    ∀ (sp : List (String × List ℝ)) (j : ℕ) (e : List ℝ), j < sp.length →
      (∀ k, k < j → labelAt sp k ≠ labelAt sp j) →
      updateFirst sp (labelAt sp j) e
        = sp.set j (labelAt sp j, emaUpdate (centroidAt sp j) e) := by
  intro sp
  induction sp with
  | nil => intro j e hj; simp at hj
  | cons p sp ih =>
    intro j e hj hne
    cases j with
    | zero =>
      simp [updateFirst, labelAt, centroidAt]
    | succ j =>
      have hne0 : ¬ p.1 = labelAt sp j := by
        have := hne 0 (by omega)
        rw [labelAt_cons] at this
        simpa [labelAt] using this
      have hj2 : j < sp.length := by simpa using hj
      rw [labelAt_cons, centroidAt_cons]
      simp only [updateFirst, if_neg hne0, List.set_cons_succ]
      rw [ih j e hj2 (fun k hk => by
        have := hne (k + 1) (by omega)
        rw [labelAt_cons, labelAt_cons] at this
        exact this)]

/-- C3: with pairwise-distinct labels, a successful embedding is matched
against every centroid by cosine similarity; if the maximum similarity
reaches `MATCH_THRESHOLD`, the first profile attaining it is returned with
only its centroid EMA-updated in place (bank size unchanged); otherwise —
including the empty bank — a new profile `"Speaker " + (count+1)` with the
embedding as centroid is appended and its label returned. -/
theorem matchOrCreate_correct (speakers : List (String × List ℝ))
    (e : List ℝ)
    (hnd : ∀ k j, k < j → j < speakers.length →
      labelAt speakers k ≠ labelAt speakers j) :
    (∀ j, j < speakers.length →
      MATCH_THRESHOLD ≤ simAt speakers e j →
      (∀ k, k < speakers.length → simAt speakers e k ≤ simAt speakers e j) →
      (∀ k, k < j → simAt speakers e k < simAt speakers e j) →
      matchOrCreate speakers e
        = (labelAt speakers j,
           speakers.set j
             (labelAt speakers j, emaUpdate (centroidAt speakers j) e))) ∧
    ((∀ k, k < speakers.length → simAt speakers e k < MATCH_THRESHOLD) →
      matchOrCreate speakers e
        = ("Speaker " ++ toString (speakers.length + 1),
           speakers ++ [("Speaker " ++ toString (speakers.length + 1), e)])) := by
  constructor
  · intro j hj hc hmax hfirst
    have hacc : ((-1 : ℝ), (none : Option String)).1 < simAt speakers e j := by
      have hm : (-1 : ℝ) < MATCH_THRESHOLD := by norm_num [MATCH_THRESHOLD]
      exact lt_of_lt_of_le hm hc
    have hbest := bestFold_argmax e speakers (-1, none) j hj hacc hmax hfirst
    unfold matchOrCreate bestOf
    rw [hbest]
    simp only [ge_iff_le, if_pos hc]
    rw [updateFirst_set speakers j e hj (fun k hk => hnd k j hk hj)]
  · intro hlt
    have hfold := bestFold_lt e MATCH_THRESHOLD speakers (-1, none)
      (by norm_num [MATCH_THRESHOLD]) hlt
    unfold matchOrCreate bestOf
    rcases hpair : speakers.foldl (bestStep e) (-1, none) with ⟨bs, bl⟩
    rw [hpair] at hfold
    cases bl with
    | none => rfl
    | some l =>
      simp only [ge_iff_le, if_neg (not_le.mpr hfold)]

/-- C3 witness: `matchOrCreate_correct` on a one-profile bank matched by
an identical embedding — self-similarity 1 clears the threshold and the
centroid is EMA-updated in place. -/
theorem matchOrCreate_correct_witness :
    matchOrCreate [("Speaker 1", [(1 : ℝ), 0])] [(1 : ℝ), 0]
      = (labelAt [("Speaker 1", [(1 : ℝ), 0])] 0,
         [("Speaker 1", [(1 : ℝ), 0])].set 0
           (labelAt [("Speaker 1", [(1 : ℝ), 0])] 0,
            emaUpdate (centroidAt [("Speaker 1", [(1 : ℝ), 0])] 0)
              [(1 : ℝ), 0])) := by
  have hsim : simAt [("Speaker 1", [(1 : ℝ), 0])] [(1 : ℝ), 0] 0 = 1 := by
    have hd : dot [(1 : ℝ), 0] [(1 : ℝ), 0] = 1 := by norm_num [dot]
    have hn : vnorm [(1 : ℝ), 0] = 1 := by rw [vnorm, hd, Real.sqrt_one]
    simp [simAt, cosineSim, hn, hd]
  refine (matchOrCreate_correct [("Speaker 1", [(1 : ℝ), 0])] [(1 : ℝ), 0]
    (fun k j hk hj => absurd hk (by simp at hj; omega))).1 0 (by simp)
    (by rw [hsim]; norm_num [MATCH_THRESHOLD])
    (fun k hk => by
      have hk0 : k = 0 := by simp at hk; omega
      subst hk0
      exact le_refl _)
    (fun k hk => absurd hk (Nat.not_lt_zero k))

end MeetR
